import Mathlib

/-!
Shallow embedding of the git-mermaid repository: the diagram-operation
dataclasses of src/git_mermaid/mermaid.py with their one-line renderers, the
theme-variable serialization, the diagram configuration, the history extractor
of src/git_mermaid/git.py, and a graph compiler modelled from the design
document (the compiler itself is absent from the source tree).
-/

namespace GitMermaid

/-- Python exceptions raised by the embedded code paths. -/
inductive PyExc where
  | notImplementedError (msg : String)
  | invalidGitRepositoryError (msg : String)
  deriving DecidableEq, Repr

/-- Dataclass Commit(Node) of mermaid.py (lines 25-29): fields id, type, tag in
declaration order. The field `type` carries the non-optional hint DISPLAY_TYPE
with default NORMAL, so it is modelled as a plain String that is never absent;
id and tag default to None. -/
structure Commit where
  id : Option String := none
  type : String := "NORMAL"
  tag : Option String := none
  deriving DecidableEq, Repr

/-- Renderer Commit.__str__ of mermaid.py (lines 42-50): starts from the word
commit, then appends every non-None entry of asdict(self) in field declaration
order (id, type, tag); the type value is emitted bare, every other value is
emitted in double quotes. Since `type` is never None it is always appended. -/
def Commit.str (c : Commit) : String :=
  let res := "commit"
  let res := match c.id with
    | some v => res ++ " id:\"" ++ v ++ "\""
    | none => res
  let res := res ++ " type:" ++ c.type
  let res := match c.tag with
    | some v => res ++ " tag:\"" ++ v ++ "\""
    | none => res
  res

/-- Dataclass Branch(Node) of mermaid.py (lines 53-62): fields name and
optional order. -/
structure Branch where
  name : String
  order : Option Int := none
  deriving DecidableEq, Repr

/-- Renderer Branch.__str__ of mermaid.py (lines 64-68): the word branch and
the name, then, when order is not None, the literal text " order: " (with a
space after the colon, as written in the source f-string) and the order. -/
def Branch.str (b : Branch) : String :=
  let res := "branch " ++ b.name
  match b.order with
  | some o => res ++ " order: " ++ toString o
  | none => res

/-- Dataclass Checkout(Node) of mermaid.py (lines 70-75). -/
structure Checkout where
  name : String
  deriving DecidableEq, Repr

/-- Renderer Checkout.__str__ of mermaid.py (lines 74-75). -/
def Checkout.str (c : Checkout) : String :=
  "checkout " ++ c.name

/-- Dataclass Merge(Node) of mermaid.py (lines 79-94): fields branch, id, tag,
type in declaration order; branch and type are never None. -/
structure Merge where
  branch : String
  id : Option String := none
  tag : Option String := none
  type : String := "NORMAL"
  deriving DecidableEq, Repr

/-- Renderer Merge.__str__ of mermaid.py (lines 86-94): the source initialises
the result with the literal f-string "checkout {branch}" (not a merge keyword),
then appends every non-None entry of asdict(self) in field declaration order
(branch, id, tag, type) with the same quoting rule as Commit.__str__; branch
and type are never None, so both are always appended. -/
def Merge.str (m : Merge) : String :=
  let res := "checkout " ++ m.branch
  let res := res ++ " branch:\"" ++ m.branch ++ "\""
  let res := match m.id with
    | some v => res ++ " id:\"" ++ v ++ "\""
    | none => res
  let res := match m.tag with
    | some v => res ++ " tag:\"" ++ v ++ "\""
    | none => res
  res ++ " type:" ++ m.type

/-- Dataclass CherryPick(Node) of mermaid.py (lines 97-102). -/
structure CherryPick where
  id : String
  deriving DecidableEq, Repr

/-- Constructor CherryPick.__init__ of mermaid.py (lines 101-102): it raises
NotImplementedError for every argument combination, before assigning any
field, so construction never yields a value. -/
def CherryPick.init (_kwargs : List (String × String)) : Except PyExc CherryPick :=
  Except.error (PyExc.notImplementedError "No cherypicking support yet!")

/-- Closed set of gitGraph entry records (the Node subclasses of mermaid.py). -/
inductive Node where
  | commit (c : Commit)
  | branch (b : Branch)
  | checkout (c : Checkout)
  | merge (m : Merge)
  deriving DecidableEq, Repr

/-- Dispatch of the per-variant renderers. -/
def Node.str : Node → String
  | Node.commit c => Commit.str c
  | Node.branch b => Branch.str b
  | Node.checkout c => Checkout.str c
  | Node.merge m => Merge.str m

/-- One insertion into a Python dict kept as an insertion-ordered association
list: an existing key is updated in place, a new key is appended. -/
def pyInsert (d : List (String × String)) (k v : String) : List (String × String) :=
  if d.any (fun kv => kv.1 == k) then
    d.map (fun kv => if kv.1 == k then (k, v) else kv)
  else
    d ++ [(k, v)]

/-- Python dict.update of one dict into another, entry by entry. -/
def pyUpdate (d new : List (String × String)) : List (String × String) :=
  new.foldl (fun acc kv => pyInsert acc kv.1 kv.2) d

/-- Dataclass ThemeVariables of mermaid.py (lines 108-146): every field is
optional with default None; the two leading fields hold whole color
dictionaries keyed by the caller. -/
structure ThemeVariables where
  branch_color : Option (List (String × String)) := none
  branch_label_color : Option (List (String × String)) := none
  commit_label_color : Option String := none
  commit_background_color : Option String := none
  commit_label_font_size : Option Int := none
  tag_label_color : Option String := none
  tag_background_color : Option String := none
  tag_border_color : Option String := none
  tag_label_font_size : Option Int := none
  deriving DecidableEq, Repr

/-- Statement pattern of ThemeVariables.dict for the two color-dictionary
fields: res.update of the whole dictionary when the field is set. -/
def updDict (res : List (String × String)) :
    Option (List (String × String)) → List (String × String)
  | some d => pyUpdate res d
  | none => res

/-- Statement pattern of ThemeVariables.dict for a scalar color field:
res.update of a one-entry dict under the fixed key when the field is set. -/
def updEntry (res : List (String × String)) (k : String) :
    Option String → List (String × String)
  | some v => pyUpdate res [(k, v)]
  | none => res

/-- Statement pattern of ThemeVariables.dict for a font-size field: the value
is rendered as the number followed by px. -/
def updPx (res : List (String × String)) (k : String) :
    Option Int → List (String × String)
  | some v => pyUpdate res [(k, toString v ++ "px")]
  | none => res

/-- Method ThemeVariables.dict of mermaid.py (lines 148-169): starting from an
empty dict, res.update is applied for each non-None field in the source's
statement order (branch_color, branch_label_color, commit_label_color,
commit_background_color, commit_label_font_size, tag_label_font_size,
tag_label_color, tag_background_color, tag_border_color), with the two font
sizes rendered as the number followed by px and the scalar fields placed under
the fixed key names written in the source. -/
def ThemeVariables.dict (tv : ThemeVariables) : List (String × String) :=
  let res : List (String × String) := []
  let res := updDict res tv.branch_color
  let res := updDict res tv.branch_label_color
  let res := updEntry res "commitLabelColor" tv.commit_label_color
  let res := updEntry res "commitLabelBackground" tv.commit_background_color
  let res := updPx res "commitLabelFontSize" tv.commit_label_font_size
  let res := updPx res "tagLabelFontSize" tv.tag_label_font_size
  let res := updEntry res "tagLabelColor" tv.tag_label_color
  let res := updEntry res "tagLabelBackground" tv.tag_background_color
  let res := updEntry res "tagLabelBorder" tv.tag_border_color
  res

/-- Dataclass Graph of mermaid.py (lines 171-205): the diagram-wide
configuration record. The orientation and theme fields carry Literal hints in
the source; a Python dataclass stores whatever value it is given. -/
structure Graph where
  nodes : List Node
  showBranches : Bool := true
  showCommitLabel : Bool := true
  mainBranchName : String := "main"
  mainBranchOrder : Int := 0
  rotateCommitLabel : Bool := true
  orientation : String := "LR"
  theme : String := "base"
  themeVariables : Option ThemeVariables := none
  deriving DecidableEq, Repr

/-- Constructor of the Graph dataclass: the generated init assigns the fields
and performs no runtime check of the Literal hints, so it cannot fail; the
Except wrapper records that no exception is ever raised. -/
def Graph.init (nodes : List Node) (showBranches showCommitLabel : Bool)
    (mainBranchName : String) (mainBranchOrder : Int) (rotateCommitLabel : Bool)
    (orientation theme : String) (themeVariables : Option ThemeVariables) :
    Except PyExc Graph :=
  Except.ok
    { nodes := nodes
      showBranches := showBranches
      showCommitLabel := showCommitLabel
      mainBranchName := mainBranchName
      mainBranchOrder := mainBranchOrder
      rotateCommitLabel := rotateCommitLabel
      orientation := orientation
      theme := theme
      themeVariables := themeVariables }

/-- Backend commit record handed to Commit.from_git: the full hexadecimal hash
and the names of the tags pointing directly at the commit. -/
structure GitCommit where
  hexsha : String
  tagsPointingAt : List String
  deriving DecidableEq, Repr

/-- Output of the backend call repo.git.tag with the points-at option: the
names of the tags pointing directly at the commit, newline-joined, the empty
string when there are none. -/
def gitTagPointsAt (c : GitCommit) : String :=
  String.intercalate "\n" c.tagsPointingAt

/-- Factory Commit.from_git of mermaid.py (lines 31-40): the tag lookup result
is converted to None when it is the empty string, the id is the slice
hexsha[0:7], and the display type is left at its default NORMAL. -/
def Commit.from_git (src : GitCommit) : Commit :=
  let tag := gitTagPointsAt src
  let tagOpt : Option String := if tag = "" then none else some tag
  { id := some (String.mk (src.hexsha.data.take 7)), type := "NORMAL", tag := tagOpt }

/-- Backend repository data behind git.Repo: the commits reachable from the
local heads (iter_commits order) and the local branch names. -/
structure GitRepoData where
  commits : List GitCommit
  heads : List String
  deriving DecidableEq, Repr

/-- Function nodes_from_repo of git.py (lines 17-30): git.Repo raises for a
path that does not resolve to a repository (the none case); for a repository
the body lists the commits, initialises a branches dictionary mapping each
head to an empty list, and then ends without a return statement, so Python
returns None. -/
def nodes_from_repo (resolved : Option GitRepoData) : Except PyExc (Option (List Node)) :=
  match resolved with
  | none => Except.error (PyExc.invalidGitRepositoryError "path does not resolve to a repository")
  | some repo =>
    let _commits := repo.commits
    let _branches := repo.heads.map (fun h => (h, ([] : List Node)))
    Except.ok none

/-- Modelled from the spec: CommitNode of the design document's data model;
the Graph Compiler and its input entities are absent from the source tree. -/
structure CommitNode where
  id : String
  parents : List String
  timestamp : Nat
  tag : Option String := none
  deriving DecidableEq, Repr

/-- Modelled from the spec: a branch name with its head commit identifier. -/
structure BranchHead where
  name : String
  head : String
  deriving DecidableEq, Repr

/-- Modelled from the spec: the CommitGraph consumed by the Graph Compiler. -/
structure CommitGraph where
  commits : List CommitNode
  branches : List BranchHead
  mainBranch : String := "main"
  deriving DecidableEq, Repr

/-- Modelled from the spec: ancestry test on the commit graph, used to resolve
branch ownership via the branch-head mapping; the fuel argument bounds the
walk by the number of commits. -/
def reachableFrom (cs : List CommitNode) : Nat → String → String → Bool
  | 0, _, _ => false
  | fuel + 1, src, target =>
    src == target ||
      (match cs.find? (fun c => c.id == src) with
       | none => false
       | some c => c.parents.any (fun p => reachableFrom cs fuel p target))

/-- Modelled from the spec: the branch that owns a commit, resolved via the
extractor-supplied branch-head mapping — the first branch whose head reaches
the commit — defaulting to the main branch. -/
def ownerOf (g : CommitGraph) (cid : String) : String :=
  match g.branches.find? (fun b => reachableFrom g.commits (g.commits.length + 1) b.head cid) with
  | some b => b.name
  | none => g.mainBranch

/-- Modelled from the spec: the compiler's replay state — the current branch,
the declared branches, the branch each commit was emitted on, and the
operations emitted so far. -/
structure EmitState where
  current : String
  declared : List String
  emittedOn : List (String × String)
  ops : List Node
  deriving Repr

/-- Modelled from the spec: the branch a previously processed commit was
emitted on. -/
def branchOfCommit (st : EmitState) (cid : String) : String :=
  match st.emittedOn.lookup cid with
  | some b => b
  | none => ""

/-- Modelled from the spec: timestamp lookup for a commit identifier. -/
def tsOf (g : CommitGraph) (cid : String) : Nat :=
  match g.commits.find? (fun c => c.id == cid) with
  | some c => c.timestamp
  | none => 0

/-- Modelled from the spec: the tie-break parent of a merge when no parent's
branch is current — the parent most recently committed (greatest timestamp). -/
def mostRecentParent (g : CommitGraph) : List String → String
  | [] => ""
  | p :: rest => rest.foldl (fun best q => if tsOf g best < tsOf g q then q else best) p

/-- Modelled from the spec: one step of the Graph Compiler's replay (steps 2-3
of the algorithm): a root is emitted directly when the current branch has no
commits yet, and otherwise declares a distinct root branch first; a
single-parent commit switches to — declaring if needed — the owning branch; a
merge commit checks out the receiving branch and emits one Merge per remaining
parent branch. -/
def step (g : CommitGraph) (st : EmitState) (c : CommitNode) : EmitState :=
  match c.parents with
  | [] =>
    if st.emittedOn.any (fun e => e.2 == st.current) then
      let b := ownerOf g c.id
      { current := b
        declared := st.declared ++ [b]
        emittedOn := st.emittedOn ++ [(c.id, b)]
        ops := st.ops ++ [Node.branch { name := b }, Node.checkout { name := b },
          Node.commit { id := some c.id, tag := c.tag }] }
    else
      { st with
        emittedOn := st.emittedOn ++ [(c.id, st.current)]
        ops := st.ops ++ [Node.commit { id := some c.id, tag := c.tag }] }
  | [_p] =>
    let b := ownerOf g c.id
    let st1 :=
      if b == st.current then st
      else if st.declared.contains b then
        { st with current := b, ops := st.ops ++ [Node.checkout { name := b }] }
      else
        { st with
          current := b
          declared := st.declared ++ [b]
          ops := st.ops ++ [Node.branch { name := b }, Node.checkout { name := b }] }
    { st1 with
      emittedOn := st1.emittedOn ++ [(c.id, st1.current)]
      ops := st1.ops ++ [Node.commit { id := some c.id, tag := c.tag }] }
  | ps =>
    let pbranches := ps.map (fun p => branchOfCommit st p)
    let receiving :=
      if pbranches.contains st.current then st.current
      else branchOfCommit st (mostRecentParent g ps)
    let st1 :=
      if receiving == st.current then st
      else { st with current := receiving, ops := st.ops ++ [Node.checkout { name := receiving }] }
    let others := pbranches.filter (fun b => b != receiving)
    { st1 with
      emittedOn := st1.emittedOn ++ [(c.id, receiving)]
      ops := st1.ops ++ others.map (fun b => Node.merge { branch := b, id := some c.id, tag := c.tag }) }

/-- Modelled from the spec: steps 2-4 of the Graph Compiler — fold the replay
step over the commits in the chosen order, starting on the default branch,
which is implicitly declared. -/
def emitOps (g : CommitGraph) (ord : List CommitNode) : List Node :=
  (ord.foldl (step g)
    { current := g.mainBranch, declared := [g.mainBranch], emittedOn := [], ops := [] }).ops

/-- Modelled from the spec: the tie-break key ordering of step 1 — commit
timestamp (earlier first), then identifier (lexicographic). -/
def keyLe (c d : CommitNode) : Prop :=
  c.timestamp < d.timestamp ∨ (c.timestamp = d.timestamp ∧ c.id ≤ d.id)

/-- Modelled from the spec: a commit is ready when none of its parents is
still waiting to be ordered (parent-before-child causality). -/
def Ready (rem : List CommitNode) (c : CommitNode) : Prop :=
  ∀ p ∈ c.parents, ∀ d ∈ rem, d.id ≠ p

/-- Modelled from the spec: step 1 of the Graph Compiler — a run picks, at
every position, a ready commit that is least for the tie-break key among the
ready remaining commits, until none remain. -/
inductive SpecTopo : List CommitNode → List CommitNode → Prop where
  | nil : SpecTopo [] []
  | cons (c : CommitNode) (rem out : List CommitNode) :
      c ∈ rem → Ready rem c →
      (∀ c' ∈ rem, Ready rem c' → keyLe c c') →
      SpecTopo (rem.erase c) out →
      SpecTopo rem (c :: out)

/-- Modelled from the spec: a complete run of the Graph Compiler — an ordering
of all commits satisfying step 1, replayed by steps 2-4. -/
def CompilerRun (g : CommitGraph) (ops : List Node) : Prop :=
  ∃ ord, SpecTopo g.commits ord ∧ ops = emitOps g ord

/-- Serializer body: the rendered operation lines joined by newlines. -/
def render (ops : List Node) : String :=
  String.intercalate "\n" (ops.map Node.str)

/-- Substring relation on strings, phrased over the character lists. -/
def strContains (s pat : String) : Prop :=
  ∃ l r, s.data = l ++ pat.data ++ r

/-- Space-separated tokens of a rendered line, phrased over the character
list so that concrete lines evaluate. -/
def tokens (s : String) : List String :=
  (s.data.splitOn ' ').map String.mk

/-- Claim-side contribution of an optional id field to a rendered line: the
quoted id token when the field is non-null, nothing when it is null. -/
def idTok : Option String → String
  | some v => " id:\"" ++ v ++ "\""
  | none => ""

/-- Claim-side contribution of an optional tag field to a rendered line: the
quoted tag token when the field is non-null, nothing when it is null. -/
def tagTok : Option String → String
  | some v => " tag:\"" ++ v ++ "\""
  | none => ""

/-- Claim-side expected entry for a scalar color field: the fixed key with
the value when the field is set, nothing when it is absent. -/
def entryOf (k : String) : Option String → List (String × String)
  | some v => [(k, v)]
  | none => []

/-- Claim-side expected entry for a font-size field: the fixed key with the
value rendered with a px suffix when the field is set, nothing otherwise. -/
def pxEntryOf (k : String) : Option Int → List (String × String)
  | some v => [(k, toString v ++ "px")]
  | none => []

/-- Claim-side expected scalar part of the serialized theme variables: one
entry per set scalar field under its fixed output key, in emission order,
with absent fields omitted. -/
def scalarEntries (tv : ThemeVariables) : List (String × String) :=
  entryOf "commitLabelColor" tv.commit_label_color ++
  entryOf "commitLabelBackground" tv.commit_background_color ++
  pxEntryOf "commitLabelFontSize" tv.commit_label_font_size ++
  pxEntryOf "tagLabelFontSize" tv.tag_label_font_size ++
  entryOf "tagLabelColor" tv.tag_label_color ++
  entryOf "tagLabelBackground" tv.tag_background_color ++
  entryOf "tagLabelBorder" tv.tag_border_color

/-- Fixed output key names of the scalar theme-variable fields. -/
def scalarKeyNames : List String :=
  ["commitLabelColor", "commitLabelBackground", "commitLabelFontSize",
   "tagLabelFontSize", "tagLabelColor", "tagLabelBackground", "tagLabelBorder"]

/-- Bookkeeping for the serialization proof: every entry of the accumulated
dict comes from one of the two user color dictionaries or carries one of the
scalar keys already emitted. -/
def KeysOk (bc blc : List (String × String)) (used : List String)
    (acc : List (String × String)) : Prop :=
  ∀ kv ∈ acc, kv ∈ bc ∨ kv ∈ blc ∨ kv.1 ∈ used

/-- Concrete root commit used to exhibit a compiler run. -/
def cExample : CommitNode :=
  { id := "a1b2c3d", parents := [], timestamp := 0, tag := none }

/-- Concrete one-commit graph used to exhibit a compiler run. -/
def gExample : CommitGraph :=
  { commits := [cExample]
    branches := [{ name := "main", head := "a1b2c3d" }]
    mainBranch := "main" }

/-- Hexadecimal digits, the characters a git short hash is made of. -/
def isHexChar (c : Char) : Bool :=
  c.isDigit || ('a' ≤ c && c ≤ 'f')

theorem mem_of_strContains {s pat : String} {ch : Char}
    (h : strContains s pat) (hc : ch ∈ pat.data) : ch ∈ s.data := by
  obtain ⟨l, r, hs⟩ := h
  rw [hs]
  simp only [List.mem_append]
  exact Or.inl (Or.inr hc)

/-- C1: the claim states that nodes_from_repo returns a fully populated commit
graph and never None for a valid repository; evaluating the embedded extractor
on a concrete readable repository shows the body falls through and yields
None, while a path that is not a repository raises the repository error. -/
theorem nodes_from_repo_c1_eval :
    nodes_from_repo (some
      { commits := [{ hexsha := "a1b2c3d4e5f6a7b8c9d0a1b2c3d4e5f6a7b8c9d0", tagsPointingAt := [] }]
        heads := ["main"] }) = Except.ok none ∧
    nodes_from_repo none =
      Except.error (PyExc.invalidGitRepositoryError "path does not resolve to a repository") :=
  ⟨rfl, rfl⟩

/-- C2: the claim states that the line rendered for a Merge has a leading
command keyword different from the one rendered by Checkout; evaluating the
renderers at branch dev shows Merge.__str__ starts from the literal text
checkout followed by the branch, so both lines begin with the same keyword. -/
theorem merge_str_c2_eval :
    Merge.str { branch := "dev" } = "checkout dev branch:\"dev\" type:NORMAL" ∧
    Checkout.str { name := "dev" } = "checkout dev" ∧
    (tokens (Merge.str { branch := "dev" })).headD "" =
      (tokens (Checkout.str { name := "dev" })).headD "" ∧
    (tokens (Merge.str { branch := "dev" })).headD "" = "checkout" := by
  refine ⟨rfl, rfl, ?_, ?_⟩ <;> decide

/-- C4 counterexample: constructing the diagram configuration with orientation
XX (outside the enumerated set) and theme nope (outside the theme set)
succeeds instead of failing with a configuration error. -/
theorem graph_init_c4_counterexample :
    Graph.init [] true true "main" 0 true "XX" "nope" none =
      Except.ok
        { nodes := []
          orientation := "XX"
          theme := "nope" } :=
  rfl

/-- C4 amended: Graph construction performs no validation of the enumerated
fields — it succeeds for every orientation and theme value, storing the given
values unchanged; no configuration error exists at construction time. -/
theorem graph_init_never_fails (nodes : List Node) (sb scl : Bool) (mbn : String)
    (mbo : Int) (rcl : Bool) (orientation theme : String) (tv : Option ThemeVariables) :
    Graph.init nodes sb scl mbn mbo rcl orientation theme tv =
      Except.ok
        { nodes := nodes
          showBranches := sb
          showCommitLabel := scl
          mainBranchName := mbn
          mainBranchOrder := mbo
          rotateCommitLabel := rcl
          orientation := orientation
          theme := theme
          themeVariables := tv } :=
  rfl

/-- C5: requesting a CherryPick construction fails synchronously for every
argument combination with the not-implemented error raised by the source
constructor, and never yields a constructed object. -/
theorem cherrypick_always_fails (kwargs : List (String × String)) :
    CherryPick.init kwargs =
      Except.error (PyExc.notImplementedError "No cherypicking support yet!") ∧
    ∀ c : CherryPick, CherryPick.init kwargs ≠ Except.ok c := by
  refine ⟨rfl, ?_⟩
  intro c h
  exact Except.noConfusion h

theorem cherrypick_always_fails_witness :
    CherryPick.init [("id", "abc1234")] =
      Except.error (PyExc.notImplementedError "No cherypicking support yet!") :=
  (cherrypick_always_fails [("id", "abc1234")]).1

/-- C8 counterexample: the Branch renderer writes the order attribute with a
space after the colon, so the rendered line splits into four space-separated
tokens — the key and the value are separate tokens, not one key:value token
after the keyword and the name. -/
theorem branch_str_c8_counterexample :
    Branch.str { name := "dev", order := some 3 } = "branch dev order: 3" ∧
    tokens (Branch.str { name := "dev", order := some 3 }) =
      ["branch", "dev", "order:", "3"] ∧
    (tokens (Branch.str { name := "dev", order := some 3 })).length ≠ 3 := by
  refine ⟨rfl, ?_, ?_⟩ <;> decide

/-- C3 counterexample: a Commit with the default NORMAL display type renders
to a line that does contain a type token, and so does a Merge with the
default NORMAL display type — the renderers only skip None-valued fields,
and type is never None. -/
theorem commit_str_c3_counterexample :
    Commit.str {} = "commit type:NORMAL" ∧
    strContains (Commit.str {}) " type:" ∧
    Merge.str { branch := "dev" } = "checkout dev branch:\"dev\" type:NORMAL" ∧
    strContains (Merge.str { branch := "dev" }) " type:NORMAL" := by
  refine ⟨rfl, ⟨"commit".data, "NORMAL".data, by decide⟩, rfl,
    ⟨"checkout dev branch:\"dev\"".data, [], by decide⟩⟩

/-- C3 amended: a Commit or Merge line always carries a type token, the
default NORMAL included (the type field is never null); in general a field
contributes its token to the rendered line exactly when it holds a non-null
value — the rendered line is precisely the command text followed by the
contributions of the non-null fields in declaration order, null fields
contributing nothing. -/
theorem ops_str_c3_amended (c : Commit) (m : Merge) :
    Commit.str c = "commit" ++ idTok c.id ++ (" type:" ++ c.type) ++ tagTok c.tag ∧
    Merge.str m = "checkout " ++ m.branch ++ (" branch:\"" ++ m.branch ++ "\"") ++
      idTok m.id ++ tagTok m.tag ++ (" type:" ++ m.type) ∧
    strContains (Commit.str c) (" type:" ++ c.type) ∧
    strContains (Merge.str m) (" type:" ++ m.type) ∧
    strContains (Merge.str m) (" branch:\"" ++ m.branch ++ "\"") ∧
    (∀ t, c.tag = some t → strContains (Commit.str c) (" tag:\"" ++ t ++ "\"")) ∧
    (∀ i, c.id = some i → strContains (Commit.str c) (" id:\"" ++ i ++ "\"")) ∧
    (∀ t, m.tag = some t → strContains (Merge.str m) (" tag:\"" ++ t ++ "\"")) ∧
    (∀ i, m.id = some i → strContains (Merge.str m) (" id:\"" ++ i ++ "\"")) := by
  have hc : Commit.str c = "commit" ++ idTok c.id ++ (" type:" ++ c.type) ++ tagTok c.tag := by
    obtain ⟨cid, cty, ctag⟩ := c
    cases cid <;> cases ctag <;>
      exact String.ext (by simp [Commit.str, idTok, tagTok, String.data_append,
        List.append_assoc])
  have hm : Merge.str m = "checkout " ++ m.branch ++ (" branch:\"" ++ m.branch ++ "\"") ++
      idTok m.id ++ tagTok m.tag ++ (" type:" ++ m.type) := by
    obtain ⟨mb, mid, mtag, mty⟩ := m
    cases mid <;> cases mtag <;>
      exact String.ext (by simp [Merge.str, idTok, tagTok, String.data_append,
        List.append_assoc])
  refine ⟨hc, hm, ?_, ?_, ?_, ?_, ?_, ?_, ?_⟩
  · refine ⟨("commit" ++ idTok c.id).data, (tagTok c.tag).data, ?_⟩
    rw [hc]
    simp [String.data_append, List.append_assoc]
  · refine ⟨("checkout " ++ m.branch ++ (" branch:\"" ++ m.branch ++ "\"") ++ idTok m.id ++
      tagTok m.tag).data, [], ?_⟩
    rw [hm]
    simp [String.data_append, List.append_assoc]
  · refine ⟨("checkout " ++ m.branch).data,
      (idTok m.id ++ tagTok m.tag ++ (" type:" ++ m.type)).data, ?_⟩
    rw [hm]
    simp [String.data_append, List.append_assoc]
  · intro t ht
    refine ⟨("commit" ++ idTok c.id ++ (" type:" ++ c.type)).data, [], ?_⟩
    rw [hc, ht]
    simp [tagTok, String.data_append, List.append_assoc]
  · intro i hi
    refine ⟨"commit".data, ((" type:" ++ c.type) ++ tagTok c.tag).data, ?_⟩
    rw [hc, hi]
    simp [idTok, String.data_append, List.append_assoc]
  · intro t ht
    refine ⟨("checkout " ++ m.branch ++ (" branch:\"" ++ m.branch ++ "\"") ++
      idTok m.id).data, (" type:" ++ m.type).data, ?_⟩
    rw [hm, ht]
    simp [tagTok, String.data_append, List.append_assoc]
  · intro i hi
    refine ⟨("checkout " ++ m.branch ++ (" branch:\"" ++ m.branch ++ "\"")).data,
      (tagTok m.tag ++ (" type:" ++ m.type)).data, ?_⟩
    rw [hm, hi]
    simp [idTok, String.data_append, List.append_assoc]

theorem ops_str_c3_amended_witness :
    Commit.str { id := some "abc1234", tag := some "v1" } =
      "commit" ++ idTok (some "abc1234") ++ (" type:" ++ "NORMAL") ++ tagTok (some "v1") ∧
    strContains (Merge.str { branch := "dev", id := some "abc1234" })
      (" id:\"" ++ "abc1234" ++ "\"") ∧
    strContains (Merge.str { branch := "dev", id := some "abc1234" })
      (" branch:\"" ++ "dev" ++ "\"") := by
  have h := ops_str_c3_amended { id := some "abc1234", tag := some "v1" }
    { branch := "dev", id := some "abc1234" }
  exact ⟨h.1, h.2.2.2.2.2.2.2.2 "abc1234" rfl, h.2.2.2.2.1⟩

/-- C10: Commit.from_git produces the 7-character prefix of the full hash as
id (never the full hash once the hash is longer than 7 characters), leaves
the display type at NORMAL, and converts an empty tag lookup result to an
absent tag, never to the empty string. -/
theorem from_git_c10 (src : GitCommit) :
    (Commit.from_git src).id = some (String.mk (src.hexsha.data.take 7)) ∧
    (∀ i, (Commit.from_git src).id = some i → i.length = min 7 src.hexsha.length) ∧
    (7 < src.hexsha.length → (Commit.from_git src).id ≠ some src.hexsha) ∧
    (Commit.from_git src).type = "NORMAL" ∧
    (gitTagPointsAt src = "" → (Commit.from_git src).tag = none) ∧
    (∀ t, (Commit.from_git src).tag = some t → t ≠ "") := by
  refine ⟨rfl, ?_, ?_, rfl, ?_, ?_⟩
  · intro i h
    have hh : String.mk (src.hexsha.data.take 7) = i := by
      have h0 : (Commit.from_git src).id = some (String.mk (src.hexsha.data.take 7)) := rfl
      rw [h0] at h
      exact Option.some.inj h
    rw [← hh, String.length_mk, List.length_take]
    rfl
  · intro hlen h
    have h0 : (Commit.from_git src).id = some (String.mk (src.hexsha.data.take 7)) := rfl
    rw [h0] at h
    have h1 : String.mk (src.hexsha.data.take 7) = src.hexsha := Option.some.inj h
    have h2 : src.hexsha.data.take 7 = src.hexsha.data := congrArg String.data h1
    have h3 := congrArg List.length h2
    simp only [List.length_take] at h3
    have h4 : 7 < src.hexsha.data.length := hlen
    omega
  · intro h
    simp [Commit.from_git, h]
  · intro t h ht
    subst ht
    simp only [Commit.from_git] at h
    by_cases hz : gitTagPointsAt src = ""
    · simp [hz] at h
    · simp [hz] at h

theorem from_git_c10_witness :
    (Commit.from_git { hexsha := "a1b2c3d4e5", tagsPointingAt := [] }).tag = none ∧
    ("a1b2c3d" : String).length = min 7 (String.length "a1b2c3d4e5") ∧
    (Commit.from_git { hexsha := "a1b2c3d4e5", tagsPointingAt := [] }).id ≠ some "a1b2c3d4e5" := by
  refine ⟨?_, ?_, ?_⟩
  · exact (from_git_c10 { hexsha := "a1b2c3d4e5", tagsPointingAt := [] }).2.2.2.2.1 (by decide)
  · exact (from_git_c10 { hexsha := "a1b2c3d4e5", tagsPointingAt := [] }).2.1 "a1b2c3d" (by decide)
  · exact (from_git_c10 { hexsha := "a1b2c3d4e5", tagsPointingAt := [] }).2.2.1 (by decide)

/-- C6: a commit with a single tag pointing directly at it yields a Commit
whose tag field is that name and whose rendered line carries the quoted tag
token; a commit with no tag pointing at it yields an absent (None, not empty)
tag field and a rendered line with no tag token at all. -/
theorem from_git_tag_c6 (src : GitCommit) (t : String) :
    (src.tagsPointingAt = [t] → t ≠ "" →
      (Commit.from_git src).tag = some t ∧
      strContains (Commit.str (Commit.from_git src)) (" tag:\"" ++ t ++ "\"")) ∧
    (src.tagsPointingAt = [] → (∀ ch ∈ src.hexsha.data.take 7, isHexChar ch) →
      (Commit.from_git src).tag = none ∧
      ¬ strContains (Commit.str (Commit.from_git src)) " tag:") := by
  constructor
  · intro h1 h2
    have htag : gitTagPointsAt src = t := by
      simp only [gitTagPointsAt, h1]
      rfl
    have hfg : Commit.from_git src =
        { id := some (String.mk (src.hexsha.data.take 7)), type := "NORMAL", tag := some t } := by
      simp [Commit.from_git, htag, h2]
    refine ⟨by rw [hfg], ?_⟩
    refine ⟨("commit" ++ " id:\"" ++ String.mk (src.hexsha.data.take 7) ++ "\"" ++ " type:" ++
      "NORMAL").data, [], ?_⟩
    rw [hfg]
    simp [Commit.str, String.data_append, List.append_assoc]
  · intro h1 hhex
    have htag : gitTagPointsAt src = "" := by
      simp only [gitTagPointsAt, h1]
      rfl
    have hfg : Commit.from_git src =
        { id := some (String.mk (src.hexsha.data.take 7)), type := "NORMAL", tag := none } := by
      simp [Commit.from_git, htag]
    refine ⟨by rw [hfg], ?_⟩
    intro hcon
    have hg : ('g' : Char) ∈ (Commit.str (Commit.from_git src)).data :=
      mem_of_strContains hcon (by decide)
    rw [hfg] at hg
    have hdata : (Commit.str
        { id := some (String.mk (src.hexsha.data.take 7)), type := "NORMAL", tag := none }).data =
        "commit".data ++ " id:\"".data ++ src.hexsha.data.take 7 ++ "\"".data ++
          " type:".data ++ "NORMAL".data := by
      simp [Commit.str, String.data_append, List.append_assoc]
    rw [hdata] at hg
    simp only [List.mem_append] at hg
    rcases hg with ((((h | h) | h) | h) | h) | h
    · exact absurd h (by decide)
    · exact absurd h (by decide)
    · exact absurd (hhex 'g' h) (by decide)
    · exact absurd h (by decide)
    · exact absurd h (by decide)
    · exact absurd h (by decide)

theorem from_git_tag_c6_witness :
    (Commit.from_git { hexsha := "aaaa111122223333", tagsPointingAt := ["v1"] }).tag = some "v1" ∧
    (Commit.from_git { hexsha := "aaaa111122223333", tagsPointingAt := [] }).tag = none := by
  constructor
  · exact ((from_git_tag_c6 { hexsha := "aaaa111122223333", tagsPointingAt := ["v1"] } "v1").1
      rfl (by decide)).1
  · exact ((from_git_tag_c6 { hexsha := "aaaa111122223333", tagsPointingAt := [] } "v1").2
      rfl (by decide)).1

/-- C8 amended: the Branch line is the branch keyword and the name and —
exactly when the display order is present — the order attribute rendered as
the key token followed by a space and the value token; nothing is appended
when the order is None. -/
theorem branch_str_rendering (name : String) (n : Int) :
    Branch.str { name := name, order := some n } =
      "branch " ++ name ++ " order: " ++ toString n ∧
    Branch.str { name := name, order := none } = "branch " ++ name := by
  constructor
  · simp [Branch.str, String.append_assoc]
  · rfl

theorem pyInsert_fresh (d : List (String × String)) (k v : String)
    (h : ∀ kv ∈ d, kv.1 ≠ k) : pyInsert d k v = d ++ [(k, v)] := by
  have hany : d.any (fun kv => kv.1 == k) = false := by
    rw [List.any_eq_false]
    intro kv hkv
    simpa using h kv hkv
  simp [pyInsert, hany]

theorem pyUpdate_append (d new : List (String × String))
    (hnd : (new.map Prod.fst).Nodup)
    (hfresh : ∀ kv ∈ new, ∀ kv' ∈ d, kv'.1 ≠ kv.1) :
    pyUpdate d new = d ++ new := by
  induction new generalizing d with
  | nil => simp [pyUpdate]
  | cons kv rest ih =>
    have h1 : pyInsert d kv.1 kv.2 = d ++ [kv] := by
      exact pyInsert_fresh d kv.1 kv.2 (fun kv' hkv' => hfresh kv (by simp) kv' hkv')
    have h2 : pyUpdate d (kv :: rest) = pyUpdate (pyInsert d kv.1 kv.2) rest := by
      simp [pyUpdate]
    rw [h2, h1, ih (d ++ [kv])]
    · simp
    · have hnd' : (kv.1 :: rest.map Prod.fst).Nodup := by simpa using hnd
      exact hnd'.of_cons
    · intro kv' h' kv'' h''
      rcases List.mem_append.mp h'' with hd | hk
      · exact hfresh kv' (List.mem_cons_of_mem kv h') kv'' hd
      · have hkk : kv'' = kv := by simpa using hk
        rw [hkk]
        intro heq
        have hnotin : kv.1 ∉ rest.map Prod.fst :=
          (List.nodup_cons.mp (by simpa using hnd)).1
        exact hnotin (heq ▸ List.mem_map_of_mem Prod.fst h')

theorem updDict_append (res : List (String × String))
    (o : Option (List (String × String)))
    (hnd : ((o.getD []).map Prod.fst).Nodup)
    (hfresh : ∀ kv ∈ o.getD [], ∀ kv' ∈ res, kv'.1 ≠ kv.1) :
    updDict res o = res ++ o.getD [] := by
  cases o with
  | none => simp [updDict]
  | some d => exact pyUpdate_append res d (by simpa using hnd) (by simpa using hfresh)

theorem updEntry_append (res : List (String × String)) (k : String) (o : Option String)
    (hfresh : ∀ kv' ∈ res, kv'.1 ≠ k) :
    updEntry res k o = res ++ entryOf k o := by
  cases o with
  | none => simp [updEntry, entryOf]
  | some v =>
    have h1 : pyUpdate res [(k, v)] = res ++ [(k, v)] := by
      simp only [pyUpdate, List.foldl_cons, List.foldl_nil]
      exact pyInsert_fresh res k v hfresh
    simpa [updEntry, entryOf] using h1

theorem updPx_append (res : List (String × String)) (k : String) (o : Option Int)
    (hfresh : ∀ kv' ∈ res, kv'.1 ≠ k) :
    updPx res k o = res ++ pxEntryOf k o := by
  cases o with
  | none => simp [updPx, pxEntryOf]
  | some v =>
    have h1 : pyUpdate res [(k, toString v ++ "px")] = res ++ [(k, toString v ++ "px")] := by
      simp only [pyUpdate, List.foldl_cons, List.foldl_nil]
      exact pyInsert_fresh res k (toString v ++ "px") hfresh
    simpa [updPx, pxEntryOf] using h1

theorem entryOf_key {k : String} {o : Option String} {kv : String × String}
    (h : kv ∈ entryOf k o) : kv.1 = k := by
  cases o with
  | none => simp [entryOf] at h
  | some v =>
    have : kv = (k, v) := by simpa [entryOf] using h
    rw [this]

theorem pxEntryOf_key {k : String} {o : Option Int} {kv : String × String}
    (h : kv ∈ pxEntryOf k o) : kv.1 = k := by
  cases o with
  | none => simp [pxEntryOf] at h
  | some v =>
    have : kv = (k, toString v ++ "px") := by simpa [pxEntryOf] using h
    rw [this]

theorem keysOk_step (bc blc : List (String × String)) (used : List String)
    (acc e : List (String × String)) (K : String)
    (hacc : KeysOk bc blc used acc) (he : ∀ kv ∈ e, kv.1 = K) :
    KeysOk bc blc (used ++ [K]) (acc ++ e) := by
  intro kv hkv
  rcases List.mem_append.mp hkv with h | h
  · rcases hacc kv h with h1 | h1 | h1
    · exact Or.inl h1
    · exact Or.inr (Or.inl h1)
    · exact Or.inr (Or.inr (List.mem_append_left _ h1))
  · exact Or.inr (Or.inr (List.mem_append_right _ (by simp [he kv h])))

theorem fresh_of_keysOk (bc blc : List (String × String)) (used : List String)
    (acc : List (String × String)) (hacc : KeysOk bc blc used acc)
    (hbc : ∀ kv ∈ bc, kv.1 ∉ scalarKeyNames) (hblc : ∀ kv ∈ blc, kv.1 ∉ scalarKeyNames)
    {K : String} (hK : K ∈ scalarKeyNames) (hused : K ∉ used) :
    ∀ kv ∈ acc, kv.1 ≠ K := by
  intro kv hkv heq
  rcases hacc kv hkv with h | h | h
  · exact hbc kv h (heq ▸ hK)
  · exact hblc kv h (heq ▸ hK)
  · exact hused (heq ▸ h)

/-- C7: when the user color dictionaries follow the fixed naming convention
(their keys are mutually distinct and collide with no fixed scalar output key),
ThemeVariables.dict returns exactly the two merged color dictionaries followed
by one entry per set scalar field — font sizes rendered with a px suffix —
omitting every absent field; with every field None the result is the empty
mapping. -/
theorem themeVariables_dict_c7 (tv : ThemeVariables)
    (hnd : ((tv.branch_color.getD [] ++ tv.branch_label_color.getD []).map Prod.fst).Nodup)
    (hfresh : ∀ k ∈ (tv.branch_color.getD [] ++ tv.branch_label_color.getD []).map Prod.fst,
      k ∉ scalarKeyNames) :
    ThemeVariables.dict tv =
      tv.branch_color.getD [] ++ tv.branch_label_color.getD [] ++ scalarEntries tv ∧
    ThemeVariables.dict {} = [] := by
  refine ⟨?_, rfl⟩
  set bc := tv.branch_color.getD [] with hbceq
  set blc := tv.branch_label_color.getD [] with hblceq
  set e1 := entryOf "commitLabelColor" tv.commit_label_color with he1
  set e2 := entryOf "commitLabelBackground" tv.commit_background_color with he2
  set e3 := pxEntryOf "commitLabelFontSize" tv.commit_label_font_size with he3
  set e4 := pxEntryOf "tagLabelFontSize" tv.tag_label_font_size with he4
  set e5 := entryOf "tagLabelColor" tv.tag_label_color with he5
  set e6 := entryOf "tagLabelBackground" tv.tag_background_color with he6
  set e7 := entryOf "tagLabelBorder" tv.tag_border_color with he7
  have hnd2 : (bc.map Prod.fst ++ blc.map Prod.fst).Nodup := by
    rw [← List.map_append]
    exact hnd
  have hbcnd : (bc.map Prod.fst).Nodup := hnd2.of_append_left
  have hblcnd : (blc.map Prod.fst).Nodup := hnd2.of_append_right
  have hdisj := List.disjoint_of_nodup_append hnd2
  have hbcS : ∀ kv ∈ bc, kv.1 ∉ scalarKeyNames := by
    intro kv h
    exact hfresh kv.1 (List.mem_map_of_mem Prod.fst (List.mem_append_left _ h))
  have hblcS : ∀ kv ∈ blc, kv.1 ∉ scalarKeyNames := by
    intro kv h
    exact hfresh kv.1 (List.mem_map_of_mem Prod.fst (List.mem_append_right _ h))
  have h1 : updDict [] tv.branch_color = bc := by
    have h0 := updDict_append [] tv.branch_color (by exact hbcnd)
      (fun kv _ kv' h' => absurd h' (List.not_mem_nil kv'))
    rw [hbceq]
    simpa using h0
  have h2 : updDict bc tv.branch_label_color = bc ++ blc := by
    rw [hblceq]
    apply updDict_append _ _ (by exact hblcnd)
    intro kv hkv kv' hkv' heq
    have hkv2 : kv ∈ blc := hkv
    exact hdisj (List.mem_map_of_mem Prod.fst hkv') (heq ▸ List.mem_map_of_mem Prod.fst hkv2)
  have k0 : KeysOk bc blc [] (bc ++ blc) := by
    intro kv hkv
    rcases List.mem_append.mp hkv with h | h
    · exact Or.inl h
    · exact Or.inr (Or.inl h)
  have h3 : updEntry (bc ++ blc) "commitLabelColor" tv.commit_label_color = (bc ++ blc) ++ e1 := by
    rw [he1]
    exact updEntry_append _ _ _ (fresh_of_keysOk bc blc [] _ k0 hbcS hblcS (by decide) (by decide))
  have k1 : KeysOk bc blc ["commitLabelColor"] ((bc ++ blc) ++ e1) := by
    have := keysOk_step bc blc [] (bc ++ blc) e1 "commitLabelColor" k0
      (fun kv h => entryOf_key (he1 ▸ h))
    simpa using this
  have h4 : updEntry ((bc ++ blc) ++ e1) "commitLabelBackground" tv.commit_background_color =
      ((bc ++ blc) ++ e1) ++ e2 := by
    rw [he2]
    exact updEntry_append _ _ _
      (fresh_of_keysOk bc blc ["commitLabelColor"] _ k1 hbcS hblcS (by decide) (by decide))
  have k2 : KeysOk bc blc ["commitLabelColor", "commitLabelBackground"]
      (((bc ++ blc) ++ e1) ++ e2) := by
    have := keysOk_step bc blc ["commitLabelColor"] ((bc ++ blc) ++ e1) e2
      "commitLabelBackground" k1 (fun kv h => entryOf_key (he2 ▸ h))
    simpa using this
  have h5 : updPx (((bc ++ blc) ++ e1) ++ e2) "commitLabelFontSize" tv.commit_label_font_size =
      (((bc ++ blc) ++ e1) ++ e2) ++ e3 := by
    rw [he3]
    exact updPx_append _ _ _
      (fresh_of_keysOk bc blc ["commitLabelColor", "commitLabelBackground"] _ k2 hbcS hblcS
        (by decide) (by decide))
  have k3 : KeysOk bc blc ["commitLabelColor", "commitLabelBackground", "commitLabelFontSize"]
      ((((bc ++ blc) ++ e1) ++ e2) ++ e3) := by
    have := keysOk_step bc blc ["commitLabelColor", "commitLabelBackground"]
      (((bc ++ blc) ++ e1) ++ e2) e3 "commitLabelFontSize" k2
      (fun kv h => pxEntryOf_key (he3 ▸ h))
    simpa using this
  have h6 : updPx ((((bc ++ blc) ++ e1) ++ e2) ++ e3) "tagLabelFontSize"
      tv.tag_label_font_size = ((((bc ++ blc) ++ e1) ++ e2) ++ e3) ++ e4 := by
    rw [he4]
    exact updPx_append _ _ _
      (fresh_of_keysOk bc blc
        ["commitLabelColor", "commitLabelBackground", "commitLabelFontSize"] _ k3 hbcS hblcS
        (by decide) (by decide))
  have k4 : KeysOk bc blc
      ["commitLabelColor", "commitLabelBackground", "commitLabelFontSize", "tagLabelFontSize"]
      (((((bc ++ blc) ++ e1) ++ e2) ++ e3) ++ e4) := by
    have := keysOk_step bc blc
      ["commitLabelColor", "commitLabelBackground", "commitLabelFontSize"]
      ((((bc ++ blc) ++ e1) ++ e2) ++ e3) e4 "tagLabelFontSize" k3
      (fun kv h => pxEntryOf_key (he4 ▸ h))
    simpa using this
  have h7 : updEntry (((((bc ++ blc) ++ e1) ++ e2) ++ e3) ++ e4) "tagLabelColor"
      tv.tag_label_color = (((((bc ++ blc) ++ e1) ++ e2) ++ e3) ++ e4) ++ e5 := by
    rw [he5]
    exact updEntry_append _ _ _
      (fresh_of_keysOk bc blc
        ["commitLabelColor", "commitLabelBackground", "commitLabelFontSize", "tagLabelFontSize"]
        _ k4 hbcS hblcS (by decide) (by decide))
  have k5 : KeysOk bc blc
      ["commitLabelColor", "commitLabelBackground", "commitLabelFontSize", "tagLabelFontSize",
        "tagLabelColor"]
      ((((((bc ++ blc) ++ e1) ++ e2) ++ e3) ++ e4) ++ e5) := by
    have := keysOk_step bc blc
      ["commitLabelColor", "commitLabelBackground", "commitLabelFontSize", "tagLabelFontSize"]
      (((((bc ++ blc) ++ e1) ++ e2) ++ e3) ++ e4) e5 "tagLabelColor" k4
      (fun kv h => entryOf_key (he5 ▸ h))
    simpa using this
  have h8 : updEntry ((((((bc ++ blc) ++ e1) ++ e2) ++ e3) ++ e4) ++ e5) "tagLabelBackground"
      tv.tag_background_color = ((((((bc ++ blc) ++ e1) ++ e2) ++ e3) ++ e4) ++ e5) ++ e6 := by
    rw [he6]
    exact updEntry_append _ _ _
      (fresh_of_keysOk bc blc
        ["commitLabelColor", "commitLabelBackground", "commitLabelFontSize", "tagLabelFontSize",
          "tagLabelColor"] _ k5 hbcS hblcS (by decide) (by decide))
  have k6 : KeysOk bc blc
      ["commitLabelColor", "commitLabelBackground", "commitLabelFontSize", "tagLabelFontSize",
        "tagLabelColor", "tagLabelBackground"]
      (((((((bc ++ blc) ++ e1) ++ e2) ++ e3) ++ e4) ++ e5) ++ e6) := by
    have := keysOk_step bc blc
      ["commitLabelColor", "commitLabelBackground", "commitLabelFontSize", "tagLabelFontSize",
        "tagLabelColor"]
      ((((((bc ++ blc) ++ e1) ++ e2) ++ e3) ++ e4) ++ e5) e6 "tagLabelBackground" k5
      (fun kv h => entryOf_key (he6 ▸ h))
    simpa using this
  have h9 : updEntry (((((((bc ++ blc) ++ e1) ++ e2) ++ e3) ++ e4) ++ e5) ++ e6)
      "tagLabelBorder" tv.tag_border_color =
      (((((((bc ++ blc) ++ e1) ++ e2) ++ e3) ++ e4) ++ e5) ++ e6) ++ e7 := by
    rw [he7]
    exact updEntry_append _ _ _
      (fresh_of_keysOk bc blc
        ["commitLabelColor", "commitLabelBackground", "commitLabelFontSize", "tagLabelFontSize",
          "tagLabelColor", "tagLabelBackground"] _ k6 hbcS hblcS (by decide) (by decide))
  simp only [ThemeVariables.dict]
  rw [h1, h2, h3, h4, h5, h6, h7, h8, h9]
  simp only [scalarEntries, he1, he2, he3, he4, he5, he6, he7, hbceq, hblceq,
    List.append_assoc]

theorem keyLe_antisymm_id {c d : CommitNode} (h1 : keyLe c d) (h2 : keyLe d c) :
    c.id = d.id := by
  rcases h1 with h1 | ⟨hts1, hid1⟩
  · rcases h2 with h2 | ⟨hts2, hid2⟩
    · exact absurd h2 (Nat.lt_asymm h1)
    · exact absurd h1 (by omega)
  · rcases h2 with h2 | ⟨hts2, hid2⟩
    · exact absurd h2 (by omega)
    · exact le_antisymm hid1 hid2

theorem nodup_ids_erase {rem : List CommitNode} (c : CommitNode)
    (h : (rem.map CommitNode.id).Nodup) : ((rem.erase c).map CommitNode.id).Nodup :=
  h.sublist ((List.erase_sublist c rem).map CommitNode.id)

theorem specTopo_unique : ∀ (rem out₁ : List CommitNode), SpecTopo rem out₁ →
    ∀ out₂, (rem.map CommitNode.id).Nodup → SpecTopo rem out₂ → out₁ = out₂ := by
  intro rem out₁ h₁
  induction h₁ with
  | nil =>
    intro out₂ hnd h₂
    cases h₂ with
    | nil => rfl
    | cons c rem out hc hr hmin htail => exact absurd hc (List.not_mem_nil c)
  | cons c rem out hc hr hmin htail ih =>
    intro out₂ hnd h₂
    cases h₂ with
    | nil => exact absurd hc (List.not_mem_nil c)
    | cons c' rem' out' hc' hr' hmin' htail' =>
      have hk1 : keyLe c c' := hmin c' hc' hr'
      have hk2 : keyLe c' c := hmin' c hc hr
      have hid : c.id = c'.id := keyLe_antisymm_id hk1 hk2
      have hcc : c = c' := List.inj_on_of_nodup_map hnd hc hc' hid
      subst hcc
      have hout : out = out' := ih out' (nodup_ids_erase c hnd) htail'
      rw [hout]

/-- C9: the spec-modelled Graph Compiler is deterministic — on a CommitGraph
with distinct commit identifiers, any two complete runs (each replaying an
ordering that satisfies the step-1 tie-break rule of timestamp then
identifier) produce the same Operation sequence and byte-identical rendered
text. -/
theorem compiler_deterministic (g : CommitGraph)
    (hids : (g.commits.map CommitNode.id).Nodup)
    (ops₁ ops₂ : List Node)
    (h₁ : CompilerRun g ops₁) (h₂ : CompilerRun g ops₂) :
    ops₁ = ops₂ ∧ render ops₁ = render ops₂ := by
  obtain ⟨ord₁, hs₁, he₁⟩ := h₁
  obtain ⟨ord₂, hs₂, he₂⟩ := h₂
  have hord : ord₁ = ord₂ := specTopo_unique _ _ hs₁ ord₂ hids hs₂
  subst hord
  rw [he₁, he₂]
  exact ⟨rfl, rfl⟩

theorem compiler_deterministic_witness :
    emitOps gExample [cExample] = emitOps gExample [cExample] ∧
    render (emitOps gExample [cExample]) = render (emitOps gExample [cExample]) := by
  have hrun : CompilerRun gExample (emitOps gExample [cExample]) := by
    refine ⟨[cExample], ?_, rfl⟩
    refine SpecTopo.cons cExample [cExample] [] (by decide)
      (fun p hp => absurd hp (List.not_mem_nil p)) ?_ ?_
    · intro c' hc' _
      have hcc : c' = cExample := by simpa using hc'
      subst hcc
      exact Or.inr ⟨rfl, le_refl _⟩
    · have h0 : [cExample].erase cExample = [] := by decide
      exact h0 ▸ SpecTopo.nil
  exact compiler_deterministic gExample (by decide) _ _ hrun hrun

theorem themeVariables_dict_c7_witness :
    ThemeVariables.dict
      { branch_color := some [("git0", "#ff0000"), ("git1", "#0000ff")]
        branch_label_color := some [("gitBranchLabel0", "#00ff00")]
        commit_label_font_size := some 16 } =
      [("git0", "#ff0000"), ("git1", "#0000ff"), ("gitBranchLabel0", "#00ff00"),
        ("commitLabelFontSize", "16px")] := by
  have h := (themeVariables_dict_c7
    { branch_color := some [("git0", "#ff0000"), ("git1", "#0000ff")]
      branch_label_color := some [("gitBranchLabel0", "#00ff00")]
      commit_label_font_size := some 16 } (by decide) (by decide)).1
  rw [h]
  decide

end GitMermaid
